import Mathlib

/-!
# libopfs.c: the OPFS storage adapter of wa-sqlite

A shallow embedding of `src/libopfs.c` and the properties of its glue code:
the 64-bit marshaling wrappers, the IO method table attached by `xOpen`,
`xFullPathname`, `xCurrentTime` and the registration done by `main`.

Conventions of the embedding

* C `int` and `sqlite3_int64` values are `Int`; a value stored into a 64-bit
  object goes through `wrap64`.
* A pointer is an address (`Nat`); a pointer that may be `NULL` is an
  `Option`.  The file is built for wasm32 (emscripten.h), where an access
  through the null pointer does not trap and reaches linear memory at
  address 0.
* The `opfs*` handlers are implemented in JavaScript and only declared in the C
  file, so every function that calls one takes it as an argument.
* A function address stored in a table is a value of `Fn`.
-/

namespace Libopfs

/-! ## Machine integers and status codes -/

/-- Two's-complement reduction of an integer to the range of `sqlite3_int64`. -/
def wrap64 (v : Int) : Int := (v + 2 ^ 63) % 2 ^ 64 - 2 ^ 63

/-- The values a `sqlite3_int64` can hold. -/
def isInt64 (v : Int) : Prop := -(2 ^ 63) ≤ v ∧ v < 2 ^ 63

instance (v : Int) : Decidable (isInt64 v) := by
  unfold isInt64
  infer_instance

/-- The engine's success status (`SQLITE_OK` of sqlite3.h, which is 0). -/
def SQLITE_OK : Int := 0

/-! ## Function addresses -/

/-- The functions whose addresses libopfs.c stores in its tables: the declared
JavaScript handlers (lines 9-24), the static glue functions (lines 27-70) and,
as `foreign`, any function that belongs to the engine or to another backend. -/
inductive Fn where
  | null
  | opfsClose
  | opfsRead
  | opfsWrite
  | opfsTruncate
  | opfsSync
  | opfsFileSize
  | opfsLock
  | opfsUnlock
  | opfsCheckReservedLock
  | opfsFileControl
  | opfsSectorSize
  | opfsDeviceCharacteristics
  | opfsOpen
  | opfsDelete
  | opfsAccess
  | xRead
  | xWrite
  | xTruncate
  | xOpen
  | xFullPathname
  | xCurrentTime
  | foreign (id : Nat)
  deriving DecidableEq, Repr

/-! ## The marshaling wrappers (lines 26-35)

`xRead`, `xWrite` and `xTruncate` receive a 64-bit argument by value and hand
its address to the handler.  The argument is a local object of the wrapper's
frame: the frame is pushed on the call stack for the duration of the call.  The
handlers take the 64-bit object through a pointer to `const`, so they read the
stack and change only the state `β` of the backend. -/

/-- The running program as the wrappers see it: the 64-bit slots of the call
stack (a slot's address is its index) and the state of the backend. -/
structure Machine (β : Type) where
  stack : List Int
  backend : β

/-- Reading the 64-bit object at address `p` of a stack. -/
def deref (stack : List Int) (p : Nat) : Option Int := stack[p]?

/-- Signature of `opfsRead` and `opfsWrite` (lines 10-11): file, data pointer,
amount, pointer to the offset; the memory the pointer points into; the
backend state.  The result is the status code and the new backend state. -/
abbrev RwHandler (β : Type) := Nat → Nat → Int → Nat → List Int → β → Int × β

/-- Signature of `opfsTruncate` (line 12). -/
abbrev TruncateHandler (β : Type) := Nat → Nat → List Int → β → Int × β

/-- Lines 27-29. -/
def xRead {β : Type} (opfsRead : RwHandler β) (file pData : Nat) (iAmt iOffset : Int)
    (m : Machine β) : Int × Machine β :=
  let frame := m.stack ++ [wrap64 iOffset]
  let r := opfsRead file pData iAmt m.stack.length frame m.backend
  (r.1, { stack := m.stack, backend := r.2 })

/-- Lines 30-32. -/
def xWrite {β : Type} (opfsWrite : RwHandler β) (file pData : Nat) (iAmt iOffset : Int)
    (m : Machine β) : Int × Machine β :=
  let frame := m.stack ++ [wrap64 iOffset]
  let r := opfsWrite file pData iAmt m.stack.length frame m.backend
  (r.1, { stack := m.stack, backend := r.2 })

/-- Lines 33-35. -/
def xTruncate {β : Type} (opfsTruncate : TruncateHandler β) (file : Nat) (size : Int)
    (m : Machine β) : Int × Machine β :=
  let frame := m.stack ++ [wrap64 size]
  let r := opfsTruncate file m.stack.length frame m.backend
  (r.1, { stack := m.stack, backend := r.2 })

/-- A handler instrumented with a call counter: the backend state is paired
with the number of calls made so far. -/
def tallyRw {β : Type} (h : RwHandler β) : RwHandler (β × Nat) :=
  fun file pData iAmt p mem b => ((h file pData iAmt p mem b.1).1, ((h file pData iAmt p mem b.1).2, b.2 + 1))

/-- The call counter for the truncate handler. -/
def tallyTruncate {β : Type} (h : TruncateHandler β) : TruncateHandler (β × Nat) :=
  fun file p mem b => ((h file p mem b.1).1, ((h file p mem b.1).2, b.2 + 1))

/-! ## The IO method table and `xOpen` (lines 36-55) -/

/-- The value of a `const sqlite3_io_methods*`: null, the address of the
static `io_methods` object of `xOpen`, or the address of some other table. -/
inductive MethodsPtr where
  | null
  | io_methods
  | foreign (addr : Nat)
  deriving DecidableEq, Repr

/-- The engine's base file-handle record: its only member is `pMethods`. -/
structure sqlite3_file where
  pMethods : MethodsPtr
  deriving DecidableEq, Repr

/-- An operation table: the version field and then the function slots in
declaration order. -/
structure sqlite3_io_methods where
  iVersion : Int
  slots : List Fn
  deriving DecidableEq, Repr

/-- Static initialisation of an operation table with `nSlots` function slots
from a brace list: the listed values fill the members in order, and C sets the
members the list does not reach to null.  `nSlots` is the number of function
members that the engine's header gives `sqlite3_io_methods`. -/
def staticInit (nSlots : Nat) (iVersion : Int) (fns : List Fn) : sqlite3_io_methods :=
  { iVersion := iVersion, slots := fns ++ List.replicate (nSlots - fns.length) Fn.null }

/-- Lines 37-51: the static table of `xOpen`. -/
def io_methods (nSlots : Nat) : sqlite3_io_methods :=
  staticInit nSlots 1
    [Fn.opfsClose, Fn.xRead, Fn.xWrite, Fn.xTruncate, Fn.opfsSync, Fn.opfsFileSize,
     Fn.opfsLock, Fn.opfsUnlock, Fn.opfsCheckReservedLock, Fn.opfsFileControl,
     Fn.opfsSectorSize, Fn.opfsDeviceCharacteristics]

/-- Modelled from the spec: the names of the first twelve function members of
`sqlite3_io_methods`, in the order the spec's data model lists them (close,
read, write, truncate, sync, file-size, lock, unlock, check-reserved-lock,
file-control, sector-size, device-characteristics).  The structure is declared
in the engine's header sqlite3.h, which src/ does not hold. -/
inductive IoSlot where
  | xClose
  | xRead
  | xWrite
  | xTruncate
  | xSync
  | xFileSize
  | xLock
  | xUnlock
  | xCheckReservedLock
  | xFileControl
  | xSectorSize
  | xDeviceCharacteristics
  deriving DecidableEq, Repr

/-- Position of a named member among the function slots. -/
def IoSlot.index : IoSlot → Nat
  | .xClose => 0
  | .xRead => 1
  | .xWrite => 2
  | .xTruncate => 3
  | .xSync => 4
  | .xFileSize => 5
  | .xLock => 6
  | .xUnlock => 7
  | .xCheckReservedLock => 8
  | .xFileControl => 9
  | .xSectorSize => 10
  | .xDeviceCharacteristics => 11

/-- The function stored in a named member of a table. -/
def sqlite3_io_methods.entry (t : sqlite3_io_methods) (s : IoSlot) : Fn :=
  t.slots.getD s.index Fn.null

/-- Number of function slots of a table that are not null. -/
def sqlite3_io_methods.populated (t : sqlite3_io_methods) : Nat :=
  (t.slots.filter (fun f => decide (f ≠ Fn.null))).length

/-- Signature of `opfsOpen` (line 22): it receives the file handle by
pointer, so it returns the handle as it leaves it. -/
abbrev OpenHandler (β : Type) := Nat → Nat → sqlite3_file → Int → Nat → β → Int × sqlite3_file × β

/-- Lines 36-55: the store to `file->pMethods` (line 52) comes first, the call
of `opfsOpen` (line 54) second, and its result is returned. -/
def xOpen {β : Type} (opfsOpen : OpenHandler β) (vfs zName : Nat) (file : sqlite3_file)
    (flags : Int) (pOutFlags : Nat) (b : β) : Int × sqlite3_file × β :=
  let file1 : sqlite3_file := { file with pMethods := MethodsPtr.io_methods }
  opfsOpen vfs zName file1 flags pOutFlags b

/-! ## `xFullPathname` (lines 57-60) -/

/-- Conversion of an `int` to `size_t`.  `size_t` has 32 bits on wasm32, the
target of emscripten.h; a value in `0 .. 2^31 - 1` is unchanged whatever the
width. -/
def toSizeT (v : Int) : Nat := (v % 2 ^ 32).toNat

/-- The `n` bytes that `strncpy` writes when it reads the source object `src`
(C standard, 7.24.2.4): the bytes of `src` up to its terminator, then zeros up
to `n` bytes in all; only the first `n` when no terminator is met before.
`none` when the copy would read past the end of `src`. -/
def strncpyBytes : List Nat → Nat → Option (List Nat)
  | _, 0 => some []
  | [], _ + 1 => none
  | c :: rest, n + 1 =>
    if c = 0 then some (List.replicate (n + 1) 0)
    else (strncpyBytes rest n).map (fun out => c :: out)

/-- The call `strncpy(dst, src, n)` on a destination object `dst`: the object
afterwards, or `none` when the copy leaves the bounds of `dst` or `src`. -/
def strncpy (dst src : List Nat) (n : Nat) : Option (List Nat) :=
  if n ≤ dst.length then (strncpyBytes src n).map (fun out => out ++ dst.drop n) else none

/-- Lines 57-60.  `zName` is the object the name pointer points to, `zOut` the
output buffer before the call; the result is the status and the buffer after
the call. -/
def xFullPathname (zName : List Nat) (nOut : Int) (zOut : List Nat) : Option (Int × List Nat) :=
  (strncpy zOut zName (toSizeT nOut)).map (fun out => (SQLITE_OK, out))

/-- The string a buffer holds: its bytes before the first zero byte. -/
def cString (buf : List Nat) : List Nat := buf.takeWhile (fun c => decide (c ≠ 0))

/-! ## `xCurrentTime` (lines 62-70)

A `double` is represented by the rational number it denotes.  The two
floating-point operations of the function, the conversion of a 64-bit integer
and a division, are correctly rounded (IEEE 754 binary64, round to nearest,
ties to even).  Their results here have a magnitude between `2^-27` and `2^63`,
far inside the range of normal numbers, so the exponent bounds of the format
play no part. -/

/-- Rounding of a rational number to the nearest integer, ties to even. -/
def rne (x : ℚ) : ℤ :=
  if 2 * (x - ⌊x⌋) < 1 then ⌊x⌋
  else if 1 < 2 * (x - ⌊x⌋) then ⌊x⌋ + 1
  else if ⌊x⌋ % 2 = 0 then ⌊x⌋ else ⌊x⌋ + 1

/-- The number with a 53-bit significand nearest to `q`, ties to even. -/
def toBinary64 (q : ℚ) : ℚ :=
  if q = 0 then 0 else rne (q / 2 ^ (Int.log 2 |q| - 52)) * 2 ^ (Int.log 2 |q| - 52)

/-- Conversion `(double)n` of a 64-bit integer. -/
def f64OfInt (n : Int) : ℚ := toBinary64 n

/-- Division of two `double`s (the divisor is not zero). -/
def f64Div (x y : ℚ) : ℚ := toBinary64 (x / y)

/-- Line 64. -/
def unixEpoch : Int := wrap64 (24405875 * 8640000)

/-- Line 67: `julianMillis`, each 64-bit operation reduced to 64 bits; the
division `tv_usec/1000` truncates toward zero. -/
def julianMillis (tv_sec tv_usec : Int) : Int :=
  wrap64 (wrap64 (unixEpoch + wrap64 (1000 * wrap64 tv_sec)) + wrap64 (Int.tdiv tv_usec 1000))

/-- Lines 62-70.  `tv_sec` and `tv_usec` are what `gettimeofday` stored in
`sNow`; the result is the status and the value stored to `*pJulianDay`. -/
def xCurrentTime (tv_sec tv_usec : Int) : Int × ℚ :=
  (SQLITE_OK, f64Div (f64OfInt (julianMillis tv_sec tv_usec)) 86400000)

/-- A clock reading comes before another, or is the same. -/
def readingLe (s1 u1 s2 u2 : Int) : Prop := s1 < s2 ∨ (s1 = s2 ∧ u1 ≤ u2)

/-- No 64-bit operation of line 67 overflows for the reading. -/
def noOverflow (tv_sec tv_usec : Int) : Prop :=
  isInt64 tv_sec ∧ isInt64 (1000 * tv_sec) ∧ isInt64 (unixEpoch + 1000 * tv_sec) ∧
    isInt64 (unixEpoch + 1000 * tv_sec + Int.tdiv tv_usec 1000)

instance (s u : Int) : Decidable (noOverflow s u) := by
  unfold noOverflow
  infer_instance

instance (s1 u1 s2 u2 : Int) : Decidable (readingLe s1 u1 s2 u2) := by
  unfold readingLe
  infer_instance

/-! ## The volume descriptor and `main` (lines 76-107) -/

/-- The members of `sqlite3_vfs` that libopfs.c names, in the order of the
engine's header. -/
structure sqlite3_vfs where
  iVersion : Int
  szOsFile : Int
  mxPathname : Int
  pNext : Option Nat
  zName : String
  pAppData : Option Nat
  xOpen : Fn
  xDelete : Fn
  xAccess : Fn
  xFullPathname : Fn
  xDlOpen : Fn
  xDlError : Fn
  xDlSym : Fn
  xDlClose : Fn
  xRandomness : Fn
  xSleep : Fn
  xCurrentTime : Fn
  xGetLastError : Fn
  deriving DecidableEq, Repr

/-- The engine as `main` sees it: the descriptor objects in memory, by
address; the registry of backends, the default backend first; and `lowMem`,
the bytes at address 0 of linear memory read as a descriptor, which is what an
access through a null pointer reaches on the wasm32 target. -/
structure Engine where
  heap : Nat → Option sqlite3_vfs
  vfsList : List Nat
  lowMem : sqlite3_vfs

/-- What ends a run in the embedding: an access through a pointer that is
neither null nor the address of an object of `heap`. -/
inductive Fault where
  | invalidPointer
  deriving DecidableEq, Repr

/-- Linear memory as the loader leaves it at address 0: emscripten places no
data below address 1024 and a WebAssembly memory starts zeroed, so every
member reads as zero (a null pointer, a null function, an empty string). -/
def nullPage : sqlite3_vfs :=
  { iVersion := 0
    szOsFile := 0
    mxPathname := 0
    pNext := none
    zName := ""
    pAppData := none
    xOpen := Fn.null
    xDelete := Fn.null
    xAccess := Fn.null
    xFullPathname := Fn.null
    xDlOpen := Fn.null
    xDlError := Fn.null
    xDlSym := Fn.null
    xDlClose := Fn.null
    xRandomness := Fn.null
    xSleep := Fn.null
    xCurrentTime := Fn.null
    xGetLastError := Fn.null }

/-- The seven members that `main` copies from the default backend are all
null in a descriptor. -/
def delegatedNull (v : sqlite3_vfs) : Prop :=
  v.xDlOpen = Fn.null ∧ v.xDlError = Fn.null ∧ v.xDlSym = Fn.null ∧ v.xDlClose = Fn.null ∧
    v.xRandomness = Fn.null ∧ v.xSleep = Fn.null ∧ v.xGetLastError = Fn.null

instance (v : sqlite3_vfs) : Decidable (delegatedNull v) := by
  unfold delegatedNull
  infer_instance

/-- Reading the object a pointer points to.  The program is built for wasm32
(emscripten.h), where a load through the null pointer does not trap: it reads
linear memory at address 0. -/
def load (e : Engine) (p : Option Nat) : Except Fault sqlite3_vfs :=
  match p with
  | none => .ok e.lowMem
  | some a =>
    match e.heap a with
    | none => .error .invalidPointer
    | some v => .ok v

/-- An assignment to a member of the object a pointer points to; through the
null pointer it writes linear memory at address 0. -/
def store (e : Engine) (p : Option Nat) (f : sqlite3_vfs → sqlite3_vfs) : Except Fault Engine :=
  match p with
  | none => .ok { e with lowMem := f e.lowMem }
  | some a =>
    match e.heap a with
    | none => .error .invalidPointer
    | some v => .ok { e with heap := Function.update e.heap a (some (f v)) }

/-- Engine interface, `sqlite3_malloc(sizeof(sqlite3_vfs))`.  The allocator's
choice is an input: `none` when it returns `NULL`, else the address of the new
block and the indeterminate bytes the block holds. -/
def sqlite3_malloc (e : Engine) (block : Option (Nat × sqlite3_vfs)) : Option Nat × Engine :=
  match block with
  | none => (none, e)
  | some (a, garbage) => (some a, { e with heap := Function.update e.heap a (some garbage) })

/-- Engine interface, `sqlite3_vfs_find` (sqlite3.h; not part of src/): with a
null name it returns the default backend, the head of the registry, and with a
name the first registered backend of that name. -/
def sqlite3_vfs_find (e : Engine) (zVfs : Option String) : Option Nat :=
  match zVfs with
  | none => e.vfsList.head?
  | some name =>
    e.vfsList.find? (fun p =>
      match e.heap p with
      | some v => v.zName == name
      | none => false)

/-- The assignment `p->pNext = nx` on the descriptor at address `p`. -/
def setNext (heap : Nat → Option sqlite3_vfs) (p : Nat) (nx : Option Nat) :
    Nat → Option sqlite3_vfs :=
  fun x => if x = p then (heap p).map (fun v => { v with pNext := nx }) else heap x

/-- The value of `p->pNext` for the descriptor at address `p`. -/
def nextOf (heap : Nat → Option sqlite3_vfs) (p : Nat) : Option Nat :=
  match heap p with
  | some v => v.pNext
  | none => none

/-- The loop of the engine's `vfsUnlink`: from the registered backend `p`,
whose successors in the registry are `rest`, find the backend whose successor
is `a` and make it point past `a`. -/
def unlinkAfter (heap : Nat → Option sqlite3_vfs) (a : Nat) :
    Nat → List Nat → Nat → Option sqlite3_vfs
  | _, [] => heap
  | p, q :: rest =>
    if q = a then setNext heap p (nextOf heap a) else unlinkAfter heap a q rest

/-- The engine's `vfsUnlink(pVfs)` for a descriptor at address `a`: `a` leaves
the registry, and the `pNext` link of its predecessor is redirected. -/
def vfsUnlink (e : Engine) (a : Nat) : Engine :=
  match e.vfsList with
  | [] => e
  | hd :: tl =>
    if hd = a then { e with vfsList := tl }
    else { e with heap := unlinkAfter e.heap a hd tl, vfsList := hd :: tl.erase a }

/-- Engine interface, `sqlite3_vfs_register(pVfs, makeDflt)` (sqlite3.h; not
part of src/).  The backend is first unlinked from the registry.  When
`makeDflt` is not zero or the registry is empty it becomes the head:
`pVfs->pNext = vfsList; vfsList = pVfs`.  Otherwise it is put right behind the
head, so the default stays what it was: `pVfs->pNext = vfsList->pNext;
vfsList->pNext = pVfs`.  The registry is the chain of `pNext` links; the list
`vfsList` holds the same chain in order.  With a null `pVfs` the same
assignments run on the object at address 0, and a null head is an empty
registry. -/
def sqlite3_vfs_register (e : Engine) (pVfs : Option Nat) (makeDflt : Int) :
    Except Fault (Int × Engine) :=
  match pVfs with
  | none =>
    match e.vfsList with
    | [] => .ok (SQLITE_OK, { e with lowMem := { e.lowMem with pNext := none } })
    | hd :: _ =>
      if makeDflt ≠ 0 then
        .ok (SQLITE_OK, { e with lowMem := { e.lowMem with pNext := some hd }, vfsList := [] })
      else
        .ok (SQLITE_OK,
          { heap := setNext e.heap hd none
            vfsList := [hd]
            lowMem := { e.lowMem with pNext := nextOf e.heap hd } })
  | some a =>
    match (vfsUnlink e a).vfsList with
    | [] =>
      .ok (SQLITE_OK, { e with heap := setNext (vfsUnlink e a).heap a none, vfsList := [a] })
    | hd :: tl =>
      if makeDflt ≠ 0 then
        .ok (SQLITE_OK,
          { e with heap := setNext (vfsUnlink e a).heap a (some hd), vfsList := a :: hd :: tl })
      else
        .ok (SQLITE_OK,
          { e with
            heap := setNext (setNext (vfsUnlink e a).heap a (nextOf (vfsUnlink e a).heap hd))
              hd (some a)
            vfsList := hd :: a :: tl })

/-- Lines 80-90: the assignments to the members of the new descriptor.
`szFile` is `sizeof(sqlite3_file)`. -/
def main_build (szFile : Int) (e : Engine) (vfs : Option Nat) : Except Fault Engine := do
  let e ← store e vfs (fun v => { v with iVersion := 1 })
  let e ← store e vfs (fun v => { v with szOsFile := szFile })
  let e ← store e vfs (fun v => { v with mxPathname := 1024 })
  let e ← store e vfs (fun v => { v with pNext := none })
  let e ← store e vfs (fun v => { v with zName := "opfs" })
  let e ← store e vfs (fun v => { v with pAppData := none })
  let e ← store e vfs (fun v => { v with xOpen := Fn.xOpen })
  let e ← store e vfs (fun v => { v with xDelete := Fn.opfsDelete })
  let e ← store e vfs (fun v => { v with xAccess := Fn.opfsAccess })
  let e ← store e vfs (fun v => { v with xFullPathname := Fn.xFullPathname })
  store e vfs (fun v => { v with xCurrentTime := Fn.xCurrentTime })

/-- Lines 93-101: the lookup of the default backend and the seven
`COPY_FIELD` assignments `vfs->NAME = defer->NAME`. -/
def main_delegate (e : Engine) (vfs : Option Nat) : Except Fault Engine := do
  let defer := sqlite3_vfs_find e none
  let d ← load e defer
  let e ← store e vfs (fun v => { v with xDlOpen := d.xDlOpen })
  let d ← load e defer
  let e ← store e vfs (fun v => { v with xDlError := d.xDlError })
  let d ← load e defer
  let e ← store e vfs (fun v => { v with xDlSym := d.xDlSym })
  let d ← load e defer
  let e ← store e vfs (fun v => { v with xDlClose := d.xDlClose })
  let d ← load e defer
  let e ← store e vfs (fun v => { v with xRandomness := d.xRandomness })
  let d ← load e defer
  let e ← store e vfs (fun v => { v with xSleep := d.xSleep })
  let d ← load e defer
  store e vfs (fun v => { v with xGetLastError := d.xGetLastError })

/-- Lines 76-107.  The inputs are `sizeof(sqlite3_file)`, what
`sqlite3_initialize()` of the build does to the engine, the allocator's choice
and the engine before the call; the result is the exit status and the engine
afterwards. -/
def main (szFile : Int) (engineInit : Engine → Engine) (block : Option (Nat × sqlite3_vfs))
    (e0 : Engine) : Except Fault (Int × Engine) := do
  let e := engineInit e0
  let (vfs, e) := sqlite3_malloc e block
  let e ← main_build szFile e vfs
  let e ← main_delegate e vfs
  let (_, e) ← sqlite3_vfs_register e vfs 0
  pure (0, e)

/-- The descriptor that lines 80-101 leave in the new block when the default
backend is `d`: every member that the embedding holds has been assigned. -/
def opfsDescriptor (szFile : Int) (d : sqlite3_vfs) : sqlite3_vfs :=
  { iVersion := 1
    szOsFile := szFile
    mxPathname := 1024
    pNext := none
    zName := "opfs"
    pAppData := none
    xOpen := Fn.xOpen
    xDelete := Fn.opfsDelete
    xAccess := Fn.opfsAccess
    xFullPathname := Fn.xFullPathname
    xDlOpen := d.xDlOpen
    xDlError := d.xDlError
    xDlSym := d.xDlSym
    xDlClose := d.xDlClose
    xRandomness := d.xRandomness
    xSleep := d.xSleep
    xCurrentTime := Fn.xCurrentTime
    xGetLastError := d.xGetLastError }

/-- The outcome of a run as plain data: the exit status and the default
backend afterwards, or `none` when the run ends in a fault. -/
def defaultAfter (r : Except Fault (Int × Engine)) : Option (Int × Option Nat) :=
  match r with
  | .ok (rc, e) => some (rc, sqlite3_vfs_find e none)
  | .error _ => none

/-! ## Sample inputs -/

/-- A handler that returns the amount as its status and records in the backend
the 64-bit value it reads through its pointer. -/
def probeRw : RwHandler (List Int) :=
  fun _ _ iAmt p mem seen => (iAmt, (deref mem p).getD (-1) :: seen)

/-- A truncate handler that returns status 7 and records the value it reads
through its pointer. -/
def probeTruncate : TruncateHandler (List Int) :=
  fun _ p mem seen => (7, (deref mem p).getD (-1) :: seen)

/-- A backend open handler that succeeds, leaves the handle alone and counts the
open in the backend. -/
def okOpen : OpenHandler Nat :=
  fun _ _ file _ _ opened => (SQLITE_OK, file, opened + 1)

/-- A backend open handler that clears the handle's operation-table reference
and reports success. -/
def clearingOpen : OpenHandler Nat :=
  fun _ _ _ _ _ opened => (SQLITE_OK, { pMethods := MethodsPtr.null }, opened + 1)

/-- A default backend as an operating-system layer registers it: named "unix",
with entry points of its own. -/
def unixVfs : sqlite3_vfs :=
  { iVersion := 3
    szOsFile := 80
    mxPathname := 512
    pNext := none
    zName := "unix"
    pAppData := none
    xOpen := Fn.foreign 100
    xDelete := Fn.foreign 101
    xAccess := Fn.foreign 102
    xFullPathname := Fn.foreign 103
    xDlOpen := Fn.foreign 104
    xDlError := Fn.foreign 105
    xDlSym := Fn.foreign 106
    xDlClose := Fn.foreign 107
    xRandomness := Fn.foreign 108
    xSleep := Fn.foreign 109
    xCurrentTime := Fn.foreign 110
    xGetLastError := Fn.foreign 111 }

/-- The bytes of a block fresh from the allocator. -/
def staleBlock : sqlite3_vfs :=
  { iVersion := -1
    szOsFile := 12345
    mxPathname := 0
    pNext := some 77
    zName := ""
    pAppData := some 78
    xOpen := Fn.foreign 1
    xDelete := Fn.foreign 2
    xAccess := Fn.null
    xFullPathname := Fn.foreign 3
    xDlOpen := Fn.foreign 4
    xDlError := Fn.foreign 5
    xDlSym := Fn.null
    xDlClose := Fn.foreign 6
    xRandomness := Fn.foreign 7
    xSleep := Fn.foreign 8
    xCurrentTime := Fn.foreign 9
    xGetLastError := Fn.foreign 10 }

/-- An engine whose registry holds one backend, `unixVfs` at address 1. -/
def unixEngine : Engine :=
  { heap := fun a => if a = 1 then some unixVfs else none
    vfsList := [1]
    lowMem := nullPage }

/-- An engine with no backend registered, its linear memory zero at address 0. -/
def bareEngine : Engine :=
  { heap := fun _ => none
    vfsList := []
    lowMem := nullPage }

/-! # Properties -/

/-! ## Helper lemmas -/

theorem wrap64_of_isInt64 {v : Int} (h : isInt64 v) : wrap64 v = v := by
  unfold isInt64 at h
  unfold wrap64
  omega

theorem deref_frame (stack : List Int) (v : Int) :
    deref (stack ++ [v]) stack.length = some v := by
  simp [deref]

/-! ## The marshaling wrappers -/

/-- C1: for every file handle, buffer, amount and signed 64-bit value `v`, each
of `xRead`, `xWrite` and `xTruncate` is one call of its handler with the other
arguments unchanged and a pointer `p` into a memory `mem` where the object at
`p` is `v`; the wrapper returns the status of that call, the backend is left
in the state that one call produced, and a handler that counts its calls has
been called exactly once. -/
theorem bridge_marshals_by_pointer {β : Type} (opfsRead opfsWrite : RwHandler β)
    (opfsTruncate : TruncateHandler β) (file pData : Nat) (iAmt v : Int) (m : Machine β)
    (calls : Nat) (hv : isInt64 v) :
    ∃ (p : Nat) (mem : List Int), deref mem p = some v ∧
      xRead opfsRead file pData iAmt v m =
        ((opfsRead file pData iAmt p mem m.backend).1,
          { stack := m.stack, backend := (opfsRead file pData iAmt p mem m.backend).2 }) ∧
      xWrite opfsWrite file pData iAmt v m =
        ((opfsWrite file pData iAmt p mem m.backend).1,
          { stack := m.stack, backend := (opfsWrite file pData iAmt p mem m.backend).2 }) ∧
      xTruncate opfsTruncate file v m =
        ((opfsTruncate file p mem m.backend).1,
          { stack := m.stack, backend := (opfsTruncate file p mem m.backend).2 }) ∧
      (xRead (tallyRw opfsRead) file pData iAmt v
          { stack := m.stack, backend := (m.backend, calls) }).2.backend.2 = calls + 1 ∧
      (xWrite (tallyRw opfsWrite) file pData iAmt v
          { stack := m.stack, backend := (m.backend, calls) }).2.backend.2 = calls + 1 ∧
      (xTruncate (tallyTruncate opfsTruncate) file v
          { stack := m.stack, backend := (m.backend, calls) }).2.backend.2 = calls + 1 := by
  refine ⟨m.stack.length, m.stack ++ [v], deref_frame m.stack v, ?_, ?_, ?_, ?_, ?_, ?_⟩
  · simp [xRead, wrap64_of_isInt64 hv]
  · simp [xWrite, wrap64_of_isInt64 hv]
  · simp [xTruncate, wrap64_of_isInt64 hv]
  · simp [xRead, tallyRw]
  · simp [xWrite, tallyRw]
  · simp [xTruncate, tallyTruncate]

/-- C1 at the largest signed 64-bit value, on a stack that already holds two
slots. -/
theorem bridge_marshals_by_pointer_witness :
    isInt64 (2 ^ 63 - 1) ∧
    ∃ (p : Nat) (mem : List Int), deref mem p = some (2 ^ 63 - 1) ∧
      xRead probeRw 3 4 512 (2 ^ 63 - 1) { stack := [10, 20], backend := [] } =
        ((probeRw 3 4 512 p mem []).1,
          { stack := [10, 20], backend := (probeRw 3 4 512 p mem []).2 }) ∧
      xWrite probeRw 3 4 512 (2 ^ 63 - 1) { stack := [10, 20], backend := [] } =
        ((probeRw 3 4 512 p mem []).1,
          { stack := [10, 20], backend := (probeRw 3 4 512 p mem []).2 }) ∧
      xTruncate probeTruncate 3 (2 ^ 63 - 1) { stack := [10, 20], backend := [] } =
        ((probeTruncate 3 p mem []).1,
          { stack := [10, 20], backend := (probeTruncate 3 p mem []).2 }) ∧
      (xRead (tallyRw probeRw) 3 4 512 (2 ^ 63 - 1)
          { stack := [10, 20], backend := ([], 0) }).2.backend.2 = 0 + 1 ∧
      (xWrite (tallyRw probeRw) 3 4 512 (2 ^ 63 - 1)
          { stack := [10, 20], backend := ([], 0) }).2.backend.2 = 0 + 1 ∧
      (xTruncate (tallyTruncate probeTruncate) 3 (2 ^ 63 - 1)
          { stack := [10, 20], backend := ([], 0) }).2.backend.2 = 0 + 1 :=
  ⟨by decide,
    bridge_marshals_by_pointer probeRw probeRw probeTruncate 3 4 512 (2 ^ 63 - 1)
      { stack := [10, 20], backend := [] } 0 (by decide)⟩


/-! ## `xOpen` and the IO method table -/

/-- C3: the table of `xOpen` has version 1; its first twelve function slots
are, in order, `opfsClose`, `xRead`, `xWrite`, `xTruncate`, `opfsSync`,
`opfsFileSize`, `opfsLock`, `opfsUnlock`, `opfsCheckReservedLock`,
`opfsFileControl`, `opfsSectorSize`, `opfsDeviceCharacteristics`; these twelve
are the only slots that are not null, whatever the number of function slots
the structure has; and each named member holds the function listed for it. -/
theorem io_methods_layout (nSlots : Nat) (h : 12 ≤ nSlots) :
    (io_methods nSlots).iVersion = 1 ∧
      (io_methods nSlots).slots.length = nSlots ∧
      (io_methods nSlots).slots.take 12 =
        [Fn.opfsClose, Fn.xRead, Fn.xWrite, Fn.xTruncate, Fn.opfsSync, Fn.opfsFileSize,
         Fn.opfsLock, Fn.opfsUnlock, Fn.opfsCheckReservedLock, Fn.opfsFileControl,
         Fn.opfsSectorSize, Fn.opfsDeviceCharacteristics] ∧
      (∀ f ∈ (io_methods nSlots).slots.take 12, f ≠ Fn.null) ∧
      (∀ f ∈ (io_methods nSlots).slots.drop 12, f = Fn.null) ∧
      (io_methods nSlots).populated = 12 ∧
      (io_methods nSlots).entry IoSlot.xClose = Fn.opfsClose ∧
      (io_methods nSlots).entry IoSlot.xRead = Fn.xRead ∧
      (io_methods nSlots).entry IoSlot.xWrite = Fn.xWrite ∧
      (io_methods nSlots).entry IoSlot.xTruncate = Fn.xTruncate ∧
      (io_methods nSlots).entry IoSlot.xSync = Fn.opfsSync ∧
      (io_methods nSlots).entry IoSlot.xFileSize = Fn.opfsFileSize ∧
      (io_methods nSlots).entry IoSlot.xLock = Fn.opfsLock ∧
      (io_methods nSlots).entry IoSlot.xUnlock = Fn.opfsUnlock ∧
      (io_methods nSlots).entry IoSlot.xCheckReservedLock = Fn.opfsCheckReservedLock ∧
      (io_methods nSlots).entry IoSlot.xFileControl = Fn.opfsFileControl ∧
      (io_methods nSlots).entry IoSlot.xSectorSize = Fn.opfsSectorSize ∧
      (io_methods nSlots).entry IoSlot.xDeviceCharacteristics = Fn.opfsDeviceCharacteristics := by
  have hfilter : ∀ k : Nat,
      List.filter (fun f => decide (f ≠ Fn.null)) (List.replicate k Fn.null) = [] := by
    intro k
    simp
  refine ⟨rfl, ?_, ?_, ?_, ?_, ?_, ?_⟩
  · simp [io_methods, staticInit]
    omega
  · simp [io_methods, staticInit]
  · simp [io_methods, staticInit]
  · intro f hf
    simp [io_methods, staticInit] at hf
    exact hf.2
  · simp only [sqlite3_io_methods.populated, io_methods, staticInit, List.filter_append, hfilter]
    decide
  · simp [io_methods, staticInit, sqlite3_io_methods.entry, IoSlot.index]

/-- C3 for a structure with eighteen function slots. -/
theorem io_methods_layout_witness :
    (12 ≤ 18) ∧ (io_methods 18).iVersion = 1 ∧ (io_methods 18).populated = 12 ∧
      (io_methods 18).entry IoSlot.xRead = Fn.xRead :=
  ⟨by decide, (io_methods_layout 18 (by decide)).1, (io_methods_layout 18 (by decide)).2.2.2.2.2.1,
    (io_methods_layout 18 (by decide)).2.2.2.2.2.2.2.1⟩


/-! ## `xFullPathname` -/

theorem strncpyBytes_cstring (name junk : List Nat) (hname : ∀ c ∈ name, c ≠ 0) (n : Nat) :
    strncpyBytes (name ++ 0 :: junk) n
      = some (name.take n ++ List.replicate (n - name.length) 0) := by
  induction name generalizing n with
  | nil =>
    cases n with
    | zero => simp [strncpyBytes]
    | succ k => simp [strncpyBytes]
  | cons c t ih =>
    cases n with
    | zero => simp [strncpyBytes]
    | succ k =>
      have hc : c ≠ 0 := hname c (List.mem_cons_self c t)
      have ht : ∀ d ∈ t, d ≠ 0 := fun d hd => hname d (List.mem_cons_of_mem c hd)
      simp [strncpyBytes, hc, ih ht k]

theorem toSizeT_of_nonneg {v : Int} (h0 : 0 ≤ v) (h1 : v < 2 ^ 31) : toSizeT v = v.toNat := by
  unfold toSizeT
  congr 1
  omega

theorem cString_terminated (name rest : List Nat) (hname : ∀ c ∈ name, c ≠ 0) :
    cString (name ++ 0 :: rest) = name := by
  induction name with
  | nil => simp [cString]
  | cons c t ih =>
    have hc : c ≠ 0 := hname c (List.mem_cons_self c t)
    have ht : ∀ d ∈ t, d ≠ 0 := fun d hd => hname d (List.mem_cons_of_mem c hd)
    simpa [cString, List.takeWhile_cons, hc] using ih ht

/-- C7: for a name of `L` nonzero bytes followed by its terminator, a capacity
`nOut` from 0 up to the largest `int` and an output buffer of at least `nOut`
bytes, `xFullPathname` returns `SQLITE_OK`; the first `min L nOut` bytes of the
output are those of the name, the bytes from there up to `nOut` are zero, and
the buffer beyond `nOut` is untouched; when `L < nOut` the string that the
output holds is exactly the name. -/
theorem xFullPathname_copies (name junk zOut : List Nat) (nOut : Int)
    (hname : ∀ c ∈ name, c ≠ 0) (h0 : 0 ≤ nOut) (hint : nOut < 2 ^ 31)
    (hcap : nOut.toNat ≤ zOut.length) :
    ∃ out : List Nat, xFullPathname (name ++ 0 :: junk) nOut zOut = some (SQLITE_OK, out) ∧
      out.length = zOut.length ∧
      out.take (min name.length nOut.toNat) = name.take (min name.length nOut.toNat) ∧
      (∀ i : Nat, min name.length nOut.toNat ≤ i → i < nOut.toNat → out[i]? = some 0) ∧
      out.drop nOut.toNat = zOut.drop nOut.toNat ∧
      (name.length < nOut.toNat → cString out = name) := by
  set n := nOut.toNat with hn
  have hlen : (name.take n ++ List.replicate (n - name.length) 0).length = n := by
    simp
    omega
  refine ⟨name.take n ++ List.replicate (n - name.length) 0 ++ zOut.drop n, ?_, ?_, ?_, ?_, ?_, ?_⟩
  · simp [xFullPathname, strncpy, toSizeT_of_nonneg h0 hint, ← hn, hcap,
      strncpyBytes_cstring name junk hname]
  · rw [List.length_append, hlen, List.length_drop]
    omega
  · rw [List.append_assoc, List.take_append_of_le_length (by simp), List.take_take]
    congr 1
    omega
  · intro i hlo hhi
    have hi1 : i < (name.take n ++ List.replicate (n - name.length) 0).length := by omega
    rw [List.getElem?_append_left hi1]
    have hi2 : (name.take n).length ≤ i := by
      rw [List.length_take]
      omega
    rw [List.getElem?_append_right hi2, List.getElem?_replicate, if_pos]
    rw [List.length_take]
    omega
  · rw [List.drop_append_of_le_length (by omega)]
    simp [List.drop_eq_nil_of_le, hlen]
  · intro hL
    have htake : name.take n = name := List.take_of_length_le (by omega)
    obtain ⟨k, hk⟩ : ∃ k, n - name.length = k + 1 := ⟨n - name.length - 1, by omega⟩
    rw [htake, hk, List.replicate_succ, List.append_assoc]
    exact cString_terminated name _ hname

/-- C7 on the name "a/b.db" (bytes 97 47 98 46 100 98), a buffer of sixteen
bytes and capacity 16. -/
theorem xFullPathname_copies_witness :
    (∀ c ∈ [97, 47, 98, 46, 100, 98], c ≠ 0) ∧ (16 : Int).toNat ≤ (List.replicate 16 255).length ∧
    ∃ out : List Nat,
      xFullPathname ([97, 47, 98, 46, 100, 98] ++ 0 :: [33, 33]) 16 (List.replicate 16 255)
        = some (SQLITE_OK, out) ∧
      out.length = (List.replicate 16 255).length ∧
      out.take (min [97, 47, 98, 46, 100, 98].length (16 : Int).toNat)
        = [97, 47, 98, 46, 100, 98].take (min [97, 47, 98, 46, 100, 98].length (16 : Int).toNat) ∧
      (∀ i : Nat, min [97, 47, 98, 46, 100, 98].length (16 : Int).toNat ≤ i →
        i < (16 : Int).toNat → out[i]? = some 0) ∧
      out.drop (16 : Int).toNat = (List.replicate 16 255).drop (16 : Int).toNat ∧
      ([97, 47, 98, 46, 100, 98].length < (16 : Int).toNat →
        cString out = [97, 47, 98, 46, 100, 98]) :=
  ⟨by decide, by decide,
    xFullPathname_copies [97, 47, 98, 46, 100, 98] [33, 33] (List.replicate 16 255) 16
      (by decide) (by decide) (by decide) (by decide)⟩

/-! ## Rounding to binary64 -/

theorem rne_intCast (n : ℤ) : rne (n : ℚ) = n := by
  unfold rne
  simp

theorem floor_le_rne (x : ℚ) : ⌊x⌋ ≤ rne x := by
  unfold rne
  split_ifs <;> omega

theorem rne_le_floor_add_one (x : ℚ) : rne x ≤ ⌊x⌋ + 1 := by
  unfold rne
  split_ifs <;> omega

theorem rne_mono {x y : ℚ} (h : x ≤ y) : rne x ≤ rne y := by
  rcases (Int.floor_le_floor h).lt_or_eq with hlt | heq
  · have h1 := rne_le_floor_add_one x
    have h2 := floor_le_rne y
    omega
  · unfold rne
    rw [← heq]
    split_ifs <;> first | omega | (exfalso; linarith)

theorem rne_neg (x : ℚ) : rne (-x) = -rne x := by
  by_cases hx : (⌊x⌋ : ℚ) = x
  · rw [← hx, ← Int.cast_neg, rne_intCast, rne_intCast]
  · have hlt : (⌊x⌋ : ℚ) < x := lt_of_le_of_ne (Int.floor_le x) hx
    have hfl : ⌊-x⌋ = -⌊x⌋ - 1 := by
      rw [Int.floor_eq_iff]
      have := Int.lt_floor_add_one x
      push_cast
      constructor <;> linarith
    unfold rne
    rw [hfl]
    push_cast
    split_ifs <;> first | omega | (exfalso; linarith)

theorem toBinary64_neg (q : ℚ) : toBinary64 (-q) = -toBinary64 q := by
  unfold toBinary64
  by_cases hq : q = 0
  · simp [hq]
  · have hq2 : -q ≠ 0 := neg_ne_zero.mpr hq
    rw [if_neg hq, if_neg hq2, abs_neg, neg_div, rne_neg]
    push_cast
    ring

theorem two_zpow_pos (e : ℤ) : (0 : ℚ) < 2 ^ e := zpow_pos (by norm_num) e

theorem scaled_bounds {q : ℚ} (hq : 0 < q) :
    (2 : ℚ) ^ (52 : ℤ) ≤ q / 2 ^ (Int.log 2 q - 52) ∧ q / 2 ^ (Int.log 2 q - 52) < 2 ^ (53 : ℤ) := by
  have h1 : ((2 : ℕ) : ℚ) ^ Int.log 2 q ≤ q := Int.zpow_log_le_self (by norm_num) hq
  have h2 : q < ((2 : ℕ) : ℚ) ^ (Int.log 2 q + 1) := Int.lt_zpow_succ_log_self (by norm_num) q
  push_cast at h1 h2
  have hp := two_zpow_pos (Int.log 2 q - 52)
  constructor
  · rw [le_div_iff₀ hp, ← zpow_add₀ (by norm_num : (2 : ℚ) ≠ 0)]
    simpa using h1
  · rw [div_lt_iff₀ hp, ← zpow_add₀ (by norm_num : (2 : ℚ) ≠ 0)]
    have : (53 : ℤ) + (Int.log 2 q - 52) = Int.log 2 q + 1 := by ring
    rw [this]
    exact h2

theorem toBinary64_pos_bounds {q : ℚ} (hq : 0 < q) :
    (2 : ℚ) ^ Int.log 2 q ≤ toBinary64 q ∧ toBinary64 q ≤ 2 ^ (Int.log 2 q + 1) := by
  obtain ⟨h1, h2⟩ := scaled_bounds hq
  have hp := two_zpow_pos (Int.log 2 q - 52)
  have e1 : rne ((2 ^ 52 : ℤ) : ℚ) = 2 ^ 52 := rne_intCast _
  have e2 : rne ((2 ^ 53 : ℤ) : ℚ) = 2 ^ 53 := rne_intCast _
  have m1 : (2 ^ 52 : ℤ) ≤ rne (q / 2 ^ (Int.log 2 q - 52)) := by
    rw [← e1]
    apply rne_mono
    push_cast
    exact_mod_cast h1
  have m2 : rne (q / 2 ^ (Int.log 2 q - 52)) ≤ (2 ^ 53 : ℤ) := by
    rw [← e2]
    apply rne_mono
    push_cast
    exact_mod_cast h2.le
  have c1 : ((2 ^ 52 : ℤ) : ℚ) ≤ (rne (q / 2 ^ (Int.log 2 q - 52)) : ℚ) := by exact_mod_cast m1
  have c2 : (rne (q / 2 ^ (Int.log 2 q - 52)) : ℚ) ≤ ((2 ^ 53 : ℤ) : ℚ) := by exact_mod_cast m2
  unfold toBinary64
  rw [if_neg hq.ne', abs_of_pos hq]
  constructor
  · calc (2 : ℚ) ^ Int.log 2 q = (2 : ℚ) ^ (52 : ℤ) * 2 ^ (Int.log 2 q - 52) := by
          rw [← zpow_add₀ (by norm_num : (2 : ℚ) ≠ 0)]; congr 1; ring
      _ ≤ _ := by
          apply mul_le_mul_of_nonneg_right _ hp.le
          push_cast at c1
          exact_mod_cast c1
  · calc _ ≤ (2 : ℚ) ^ (53 : ℤ) * 2 ^ (Int.log 2 q - 52) := by
          apply mul_le_mul_of_nonneg_right _ hp.le
          push_cast at c2
          exact_mod_cast c2
      _ = (2 : ℚ) ^ (Int.log 2 q + 1) := by
          rw [← zpow_add₀ (by norm_num : (2 : ℚ) ≠ 0)]; congr 1; ring

theorem toBinary64_mono_pos {p q : ℚ} (hp : 0 < p) (h : p ≤ q) : toBinary64 p ≤ toBinary64 q := by
  have hq : 0 < q := lt_of_lt_of_le hp h
  rcases (Int.log_mono_right (b := 2) hp h).lt_or_eq with hlt | heq
  · calc toBinary64 p ≤ 2 ^ (Int.log 2 p + 1) := (toBinary64_pos_bounds hp).2
      _ ≤ 2 ^ Int.log 2 q := zpow_le_zpow_right₀ (by norm_num) (by omega)
      _ ≤ toBinary64 q := (toBinary64_pos_bounds hq).1
  · unfold toBinary64
    rw [if_neg hp.ne', if_neg hq.ne', abs_of_pos hp, abs_of_pos hq, heq]
    have hpos := two_zpow_pos (Int.log 2 q - 52)
    apply mul_le_mul_of_nonneg_right _ hpos.le
    have : rne (p / 2 ^ (Int.log 2 q - 52)) ≤ rne (q / 2 ^ (Int.log 2 q - 52)) :=
      rne_mono (div_le_div_of_nonneg_right h hpos.le)
    exact_mod_cast this

theorem toBinary64_nonneg {q : ℚ} (hq : 0 ≤ q) : 0 ≤ toBinary64 q := by
  rcases hq.lt_or_eq with h | h
  · exact le_trans (two_zpow_pos _).le (toBinary64_pos_bounds h).1
  · rw [← h]; simp [toBinary64]

theorem toBinary64_mono {p q : ℚ} (h : p ≤ q) : toBinary64 p ≤ toBinary64 q := by
  rcases lt_trichotomy p 0 with hp | hp | hp
  · rcases lt_or_le q 0 with hq | hq
    · have := toBinary64_mono_pos (neg_pos.mpr hq) (neg_le_neg h)
      rw [toBinary64_neg, toBinary64_neg] at this
      linarith
    · have h1 := toBinary64_nonneg (neg_pos.mpr hp).le
      rw [toBinary64_neg] at h1
      have h2 := toBinary64_nonneg hq
      linarith
  · rw [hp] at h ⊢
    have : toBinary64 0 = 0 := by simp [toBinary64]
    rw [this]
    exact toBinary64_nonneg h
  · exact toBinary64_mono_pos hp h

theorem toBinary64_exact (n e : ℤ) (hn : |n| < 2 ^ 53) :
    toBinary64 (n * 2 ^ e) = n * 2 ^ e := by
  by_cases h0 : n = 0
  · simp [h0, toBinary64]
  have h2 : (2 : ℚ) ≠ 0 := by norm_num
  have hq : (n : ℚ) * 2 ^ e ≠ 0 := mul_ne_zero (by exact_mod_cast h0) (two_zpow_pos e).ne'
  have habs : 0 < |(n : ℚ) * 2 ^ e| := abs_pos.mpr hq
  have hL : ((2 : ℕ) : ℚ) ^ Int.log 2 |(n : ℚ) * 2 ^ e| ≤ |(n : ℚ) * 2 ^ e| :=
    Int.zpow_log_le_self (by norm_num) habs
  have hlt : |(n : ℚ) * 2 ^ e| < 2 ^ (53 + e) := by
    rw [abs_mul, abs_of_pos (two_zpow_pos e), zpow_add₀ h2]
    apply mul_lt_mul_of_pos_right _ (two_zpow_pos e)
    have : ((|n| : ℤ) : ℚ) < ((2 ^ 53 : ℤ) : ℚ) := by exact_mod_cast hn
    push_cast at this
    exact_mod_cast this
  have hk : Int.log 2 |(n : ℚ) * 2 ^ e| < 53 + e := by
    have := lt_of_le_of_lt hL hlt
    push_cast at this
    exact (zpow_lt_zpow_iff_right₀ (by norm_num : (1 : ℚ) < 2)).mp this
  obtain ⟨k, hk'⟩ : ∃ k : ℕ, e - (Int.log 2 |(n : ℚ) * 2 ^ e| - 52) = k :=
    ⟨(e - (Int.log 2 |(n : ℚ) * 2 ^ e| - 52)).toNat, by omega⟩
  have hscaled : (n : ℚ) * 2 ^ e / 2 ^ (Int.log 2 |(n : ℚ) * 2 ^ e| - 52) = ((n * 2 ^ k : ℤ) : ℚ) := by
    rw [mul_div_assoc, ← zpow_sub₀ h2, hk']
    push_cast
    rw [zpow_natCast]
  unfold toBinary64
  rw [if_neg hq, hscaled, rne_intCast]
  push_cast
  rw [mul_assoc, ← zpow_natCast, ← zpow_add₀ h2, ← hk']
  congr 2
  ring

/-! ## `xCurrentTime` -/

theorem julianMillis_eq (s u : Int) :
    julianMillis s u = wrap64 (24405875 * 8640000 + 1000 * s + Int.tdiv u 1000) := by
  unfold julianMillis unixEpoch wrap64
  generalize Int.tdiv u 1000 = d
  omega

theorem julianMillis_of_noOverflow {s u : Int} (h : noOverflow s u) :
    julianMillis s u = 24405875 * 8640000 + 1000 * s + Int.tdiv u 1000 := by
  rw [julianMillis_eq]
  apply wrap64_of_isInt64
  have := h.2.2.2
  unfold unixEpoch wrap64 at this
  norm_num at this ⊢
  exact this

theorem toBinary64_epoch : toBinary64 (4881175 / 2) = 4881175 / 2 := by
  have := toBinary64_exact 4881175 (-1) (by norm_num)
  norm_num at this ⊢
  exact this

theorem xCurrentTime_epoch : xCurrentTime 0 0 = (SQLITE_OK, (2440587.5 : ℚ)) := by
  have hm : julianMillis 0 0 = 210866760000000 := by
    rw [julianMillis_eq]
    decide
  have h1 : toBinary64 ((210866760000000 : ℤ) : ℚ) = ((210866760000000 : ℤ) : ℚ) := by
    have := toBinary64_exact 210866760000000 0 (by norm_num)
    simpa using this
  simp only [xCurrentTime, hm, f64OfInt, f64Div, h1]
  norm_num
  rw [toBinary64_epoch]

/-- C8: for every clock reading `xCurrentTime` returns `SQLITE_OK` and stores
the binary64 quotient of `m` by 86400000.0, where `m` is
`24405875*8640000 + 1000*tv_sec + tv_usec/1000` reduced to 64 bits and
`tv_usec/1000` is the truncating integer division; for the reading `(0, 0)`
the stored value is exactly 2440587.5; and whenever `m` lies strictly between
`-2^53` and `2^53` its conversion to `double` is exact, so that the stored
value is the binary64 number nearest to the exact quotient `m / 86400000`. -/
theorem xCurrentTime_value (s u : Int) :
    xCurrentTime s u =
        (SQLITE_OK,
          f64Div (f64OfInt (wrap64 (24405875 * 8640000 + 1000 * s + Int.tdiv u 1000))) 86400000) ∧
      xCurrentTime 0 0 = (SQLITE_OK, (2440587.5 : ℚ)) ∧
      (-(2 ^ 53) < wrap64 (24405875 * 8640000 + 1000 * s + Int.tdiv u 1000) ∧
          wrap64 (24405875 * 8640000 + 1000 * s + Int.tdiv u 1000) < 2 ^ 53 →
        (xCurrentTime s u).2 =
          toBinary64
            (((wrap64 (24405875 * 8640000 + 1000 * s + Int.tdiv u 1000) : ℤ) : ℚ) / 86400000)) := by
  refine ⟨?_, xCurrentTime_epoch, ?_⟩
  · simp only [xCurrentTime, julianMillis_eq]
  · intro hm
    have hex := toBinary64_exact (wrap64 (24405875 * 8640000 + 1000 * s + Int.tdiv u 1000)) 0
      (abs_lt.mpr ⟨hm.1, hm.2⟩)
    simp only [zpow_zero, mul_one] at hex
    simp only [xCurrentTime, julianMillis_eq, f64Div, f64OfInt, hex]

/-- C8 at a reading of the year 2023: the millisecond count is below `2^53`
and the stored value is the binary64 number nearest to the exact quotient. -/
theorem xCurrentTime_value_witness :
    (-(2 ^ 53) < wrap64 (24405875 * 8640000 + 1000 * 1700000000 + Int.tdiv 123456 1000) ∧
        wrap64 (24405875 * 8640000 + 1000 * 1700000000 + Int.tdiv 123456 1000) < 2 ^ 53) ∧
      (xCurrentTime 1700000000 123456).2 =
        toBinary64
          (((wrap64 (24405875 * 8640000 + 1000 * 1700000000 + Int.tdiv 123456 1000) : ℤ) : ℚ)
            / 86400000) :=
  ⟨by decide, (xCurrentTime_value 1700000000 123456).2.2 (by decide)⟩

theorem noOverflow_of_range {s u : Int} (hs : -9223372036854775 ≤ s ∧ s ≤ 9223161170094774)
    (hu : 0 ≤ u ∧ u < 1000000) : noOverflow s u := by
  have hd : Int.tdiv u 1000 = u / 1000 := Int.tdiv_eq_ediv hu.1 (by norm_num)
  have he : unixEpoch = 210866760000000 := by decide
  unfold noOverflow isInt64
  rw [hd, he]
  omega

theorem julianMillis_mono {s1 u1 s2 u2 : Int} (hu1 : 0 ≤ u1 ∧ u1 < 1000000)
    (hu2 : 0 ≤ u2 ∧ u2 < 1000000) (hle : readingLe s1 u1 s2 u2)
    (h1 : noOverflow s1 u1) (h2 : noOverflow s2 u2) :
    julianMillis s1 u1 ≤ julianMillis s2 u2 := by
  rw [julianMillis_of_noOverflow h1, julianMillis_of_noOverflow h2]
  rw [Int.tdiv_eq_ediv hu1.1 (by norm_num), Int.tdiv_eq_ediv hu2.1 (by norm_num)]
  unfold readingLe at hle
  omega

/-- C9: the value stored by `xCurrentTime` grows with the host time.  For two
clock readings with microseconds in `0 .. 999999`, the first not later than
the second, both in the range where line 67 has a value in C (no 64-bit
operation overflows, which holds for every `tv_sec` from -9223372036854775 to
9223161170094774, some 292 million years either side of 1970), the value
stored for the first is at most the value stored for the second. -/
theorem xCurrentTime_monotone (s1 u1 s2 u2 : Int) (hu1 : 0 ≤ u1 ∧ u1 < 1000000)
    (hu2 : 0 ≤ u2 ∧ u2 < 1000000) (hle : readingLe s1 u1 s2 u2)
    (h1 : noOverflow s1 u1) (h2 : noOverflow s2 u2) :
    (xCurrentTime s1 u1).2 ≤ (xCurrentTime s2 u2).2 := by
  have hm : ((julianMillis s1 u1 : ℤ) : ℚ) ≤ ((julianMillis s2 u2 : ℤ) : ℚ) := by
    exact_mod_cast julianMillis_mono hu1 hu2 hle h1 h2
  simp only [xCurrentTime, f64Div, f64OfInt]
  apply toBinary64_mono
  apply div_le_div_of_nonneg_right (toBinary64_mono hm)
  norm_num

/-- C9 on two readings one microsecond apart across a second boundary. -/
theorem xCurrentTime_monotone_witness :
    readingLe 1700000000 999999 1700000001 0 ∧ noOverflow 1700000000 999999 ∧
      noOverflow 1700000001 0 ∧
      (xCurrentTime 1700000000 999999).2 ≤ (xCurrentTime 1700000001 0).2 :=
  ⟨by decide, by decide, by decide,
    xCurrentTime_monotone 1700000000 999999 1700000001 0 (by decide) (by decide) (by decide)
      (by decide) (by decide)⟩

/-! ## `main` -/

theorem main_build_ok (szFile : Int) (e : Engine) (a : Nat) (g : sqlite3_vfs)
    (h : e.heap a = some g) :
    main_build szFile e (some a) =
      .ok { heap := Function.update e.heap a (some
              { g with
                iVersion := 1
                szOsFile := szFile
                mxPathname := 1024
                pNext := none
                zName := "opfs"
                pAppData := none
                xOpen := Fn.xOpen
                xDelete := Fn.opfsDelete
                xAccess := Fn.opfsAccess
                xFullPathname := Fn.xFullPathname
                xCurrentTime := Fn.xCurrentTime })
            vfsList := e.vfsList
            lowMem := e.lowMem } := by
  simp [main_build, store, h, bind, Except.bind]

theorem main_delegate_ok (e : Engine) (a pd : Nat) (v d : sqlite3_vfs)
    (hfind : sqlite3_vfs_find e none = some pd) (hd : e.heap pd = some d)
    (hv : e.heap a = some v) (hne : pd ≠ a) :
    main_delegate e (some a) =
      .ok { heap := Function.update e.heap a (some
              { v with
                xDlOpen := d.xDlOpen
                xDlError := d.xDlError
                xDlSym := d.xDlSym
                xDlClose := d.xDlClose
                xRandomness := d.xRandomness
                xSleep := d.xSleep
                xGetLastError := d.xGetLastError })
            vfsList := e.vfsList
            lowMem := e.lowMem } := by
  simp [main_delegate, store, load, hfind, hd, hv, hne, bind, Except.bind]

theorem main_delegate_null (e : Engine) (a : Nat) (v : sqlite3_vfs)
    (hfind : sqlite3_vfs_find e none = none) (hv : e.heap a = some v) :
    main_delegate e (some a) =
      .ok { heap := Function.update e.heap a (some
              { v with
                xDlOpen := e.lowMem.xDlOpen
                xDlError := e.lowMem.xDlError
                xDlSym := e.lowMem.xDlSym
                xDlClose := e.lowMem.xDlClose
                xRandomness := e.lowMem.xRandomness
                xSleep := e.lowMem.xSleep
                xGetLastError := e.lowMem.xGetLastError })
            vfsList := e.vfsList
            lowMem := e.lowMem } := by
  simp [main_delegate, store, load, hfind, hv, bind, Except.bind]

theorem unlinkAfter_cases (heap : Nat → Option sqlite3_vfs) (a : Nat) (rest : List Nat) :
    ∀ p : Nat, p ≠ a →
      unlinkAfter heap a p rest = heap ∨
        ∃ (q : Nat) (nx : Option Nat), q ≠ a ∧ unlinkAfter heap a p rest = setNext heap q nx := by
  induction rest with
  | nil =>
    intro p _
    exact Or.inl rfl
  | cons q rest ih =>
    intro p hp
    by_cases hq : q = a
    · exact Or.inr ⟨p, nextOf heap a, hp, by simp [unlinkAfter, hq]⟩
    · simpa [unlinkAfter, hq] using ih q hq

theorem unlinkAfter_self (heap : Nat → Option sqlite3_vfs) (a p : Nat) (rest : List Nat)
    (hp : p ≠ a) : unlinkAfter heap a p rest a = heap a := by
  rcases unlinkAfter_cases heap a rest p hp with h | ⟨q, nx, hq, h⟩
  · rw [h]
  · rw [h]
    simp [setNext, Ne.symm hq]

theorem unlinkAfter_other (heap : Nat → Option sqlite3_vfs) (a p : Nat) (rest : List Nat)
    (hp : p ≠ a) (x : Nat) (d : sqlite3_vfs) (hx : heap x = some d) :
    ∃ nx : Option Nat, unlinkAfter heap a p rest x = some { d with pNext := nx } := by
  rcases unlinkAfter_cases heap a rest p hp with h | ⟨q, nx, _, h⟩
  · exact ⟨d.pNext, by rw [h, hx]⟩
  · by_cases hxq : x = q
    · subst hxq
      exact ⟨nx, by rw [h]; simp [setNext, hx]⟩
    · exact ⟨d.pNext, by rw [h]; simp [setNext, hxq, hx]⟩

theorem register_behind_head (e : Engine) (a pd : Nat) (tl : List Nat) (v d : sqlite3_vfs)
    (hl : e.vfsList = pd :: tl) (hne : pd ≠ a) (hv : e.heap a = some v)
    (hd : e.heap pd = some d) :
    ∃ (e1 : Engine) (nx : Option Nat),
      sqlite3_vfs_register e (some a) 0 = .ok (SQLITE_OK, e1) ∧
      e1.vfsList = pd :: a :: tl.erase a ∧
      e1.heap a = some { v with pNext := nx } ∧
      e1.heap pd = some { d with pNext := some a } := by
  have hu : vfsUnlink e a
      = { e with heap := unlinkAfter e.heap a pd tl, vfsList := pd :: tl.erase a } := by
    simp [vfsUnlink, hl, hne]
  have ha := unlinkAfter_self e.heap a pd tl hne
  obtain ⟨nx, hpd⟩ := unlinkAfter_other e.heap a pd tl hne pd d hd
  refine ⟨{ e with
      heap := setNext (setNext (unlinkAfter e.heap a pd tl) a
        (nextOf (unlinkAfter e.heap a pd tl) pd)) pd (some a)
      vfsList := pd :: a :: tl.erase a },
    nextOf (unlinkAfter e.heap a pd tl) pd, ?_, rfl, ?_, ?_⟩
  · simp [sqlite3_vfs_register, hu]
  · simp [setNext, Ne.symm hne, ha, hv]
  · simp [setNext, hne, hpd]

theorem main_ok (szFile : Int) (engineInit : Engine → Engine) (a : Nat) (g : sqlite3_vfs)
    (e0 : Engine) (pd : Nat) (d : sqlite3_vfs)
    (hfind : sqlite3_vfs_find (engineInit e0) none = some pd)
    (hd : (engineInit e0).heap pd = some d) (hfresh : (engineInit e0).heap a = none) :
    ∃ (e1 : Engine) (nx : Option Nat),
      main szFile engineInit (some (a, g)) e0 = .ok (0, e1) ∧
      e1.vfsList = pd :: a :: ((engineInit e0).vfsList.tail.erase a) ∧
      e1.heap a = some { opfsDescriptor szFile d with pNext := nx } ∧
      e1.heap pd = some { d with pNext := some a } := by
  have hne : pd ≠ a := by
    intro h
    rw [h, hfresh] at hd
    exact Option.noConfusion hd
  obtain ⟨tl, hl⟩ : ∃ tl, (engineInit e0).vfsList = pd :: tl := by
    cases hvl : (engineInit e0).vfsList with
    | nil => simp [sqlite3_vfs_find, hvl] at hfind
    | cons x tl =>
      simp [sqlite3_vfs_find, hvl] at hfind
      exact ⟨tl, by rw [hfind]⟩
  have hb := main_build_ok szFile
    { heap := Function.update (engineInit e0).heap a (some g)
      vfsList := (engineInit e0).vfsList
      lowMem := (engineInit e0).lowMem }
    a g (by simp)
  simp only [Function.update_idem] at hb
  have hdel := main_delegate_ok
    { heap := Function.update (engineInit e0).heap a (some ({ g with
      iVersion := 1
      szOsFile := szFile
      mxPathname := 1024
      pNext := none
      zName := "opfs"
      pAppData := none
      xOpen := Fn.xOpen
      xDelete := Fn.opfsDelete
      xAccess := Fn.opfsAccess
      xFullPathname := Fn.xFullPathname
      xCurrentTime := Fn.xCurrentTime } : sqlite3_vfs))
      vfsList := (engineInit e0).vfsList
      lowMem := (engineInit e0).lowMem }
    a pd ({ g with
      iVersion := 1
      szOsFile := szFile
      mxPathname := 1024
      pNext := none
      zName := "opfs"
      pAppData := none
      xOpen := Fn.xOpen
      xDelete := Fn.opfsDelete
      xAccess := Fn.opfsAccess
      xFullPathname := Fn.xFullPathname
      xCurrentTime := Fn.xCurrentTime } : sqlite3_vfs) d (by simp [sqlite3_vfs_find, hl]) (by simp [Function.update_noteq hne, hd])
    (by simp) hne
  simp only [Function.update_idem] at hdel
  obtain ⟨e1, nx, hreg, hlist, hea, hepd⟩ := register_behind_head
    { heap := Function.update (engineInit e0).heap a (some (opfsDescriptor szFile d))
      vfsList := (engineInit e0).vfsList
      lowMem := (engineInit e0).lowMem }
    a pd tl (opfsDescriptor szFile d) d hl hne (by simp)
    (by simp [Function.update_noteq hne, hd])
  simp only [opfsDescriptor] at hreg
  refine ⟨e1, nx, ?_, ?_, hea, hepd⟩
  · simp only [main, sqlite3_malloc, bind, Except.bind, hb, hdel, hreg]
    rfl
  · rw [hlist, hl]
    rfl

/-- C4, as the code has it: when a default backend `pd` is registered at the
moment of the lookup and the allocator returns a fresh block `a`, `main`
returns 0 and registers the new "opfs" descriptor with `makeDflt = 0`: the
descriptor stands right behind `pd` in the registry, and the lookup of the
default backend (a null name) still returns `pd`, which is not the new
descriptor. -/
theorem main_registers_behind_default (szFile : Int) (engineInit : Engine → Engine) (a : Nat)
    (g : sqlite3_vfs) (e0 : Engine) (pd : Nat) (d : sqlite3_vfs)
    (hfind : sqlite3_vfs_find (engineInit e0) none = some pd)
    (hd : (engineInit e0).heap pd = some d) (hfresh : (engineInit e0).heap a = none) :
    ∃ e1 : Engine, main szFile engineInit (some (a, g)) e0 = .ok (0, e1) ∧
      sqlite3_vfs_find e1 none = some pd ∧ pd ≠ a ∧
      e1.vfsList = pd :: a :: ((engineInit e0).vfsList.tail.erase a) ∧
      (e1.heap a).map (fun v => v.zName) = some "opfs" := by
  obtain ⟨e1, nx, hmain, hlist, hea, _⟩ := main_ok szFile engineInit a g e0 pd d hfind hd hfresh
  refine ⟨e1, hmain, ?_, ?_, hlist, ?_⟩
  · simp [sqlite3_vfs_find, hlist]
  · intro h
    rw [h, hfresh] at hd
    exact Option.noConfusion hd
  · rw [hea]
    rfl

/-- C4 (amended) on an engine whose only backend is "unix" at address 1, with
the new block at address 2. -/
theorem main_registers_behind_default_witness :
    sqlite3_vfs_find (id unixEngine) none = some 1 ∧ (id unixEngine).heap 1 = some unixVfs ∧
      (id unixEngine).heap 2 = none ∧
      ∃ e1 : Engine, main 4 id (some (2, staleBlock)) unixEngine = .ok (0, e1) ∧
        sqlite3_vfs_find e1 none = some 1 ∧ 1 ≠ 2 ∧
        e1.vfsList = 1 :: 2 :: ((id unixEngine).vfsList.tail.erase 2) ∧
        (e1.heap 2).map (fun v => v.zName) = some "opfs" :=
  ⟨rfl, rfl, rfl,
    main_registers_behind_default 4 id 2 staleBlock unixEngine 1 unixVfs rfl rfl rfl⟩

/-- C4 as stated fails: with the backend "unix" registered as default at
address 1 and the new descriptor built at address 2, `main` returns 0 and the
lookup of the default backend afterwards returns address 1, not the new
descriptor. -/
theorem main_does_not_make_default :
    defaultAfter (main 4 id (some (2, staleBlock)) unixEngine) = some (0, some 1) ∧
      defaultAfter (main 4 id (some (2, staleBlock)) unixEngine) ≠ some (0, some 2) := by
  obtain ⟨e1, nx, hmain, hlist, _, _⟩ := main_ok 4 id 2 staleBlock unixEngine 1 unixVfs rfl rfl rfl
  rw [hmain]
  simp [defaultAfter, sqlite3_vfs_find, hlist]

/-- C5: for every default backend `d` registered at the moment of the lookup
(and a fresh block `a`), `main` completes and the seven delegated members of
the new descriptor are those of `d`, while `xOpen`, `xDelete`, `xAccess`,
`xFullPathname` and `xCurrentTime` are the adapter's own functions whatever
`d` holds.  The members of `d` itself are as they were, except that the
registration makes its `pNext` link point to the new descriptor. -/
theorem main_delegates_from_default (szFile : Int) (engineInit : Engine → Engine) (a : Nat)
    (g : sqlite3_vfs) (e0 : Engine) (pd : Nat) (d : sqlite3_vfs)
    (hfind : sqlite3_vfs_find (engineInit e0) none = some pd)
    (hd : (engineInit e0).heap pd = some d) (hfresh : (engineInit e0).heap a = none) :
    ∃ (e1 : Engine) (v : sqlite3_vfs),
      main szFile engineInit (some (a, g)) e0 = .ok (0, e1) ∧ e1.heap a = some v ∧
      v.xDlOpen = d.xDlOpen ∧ v.xDlError = d.xDlError ∧ v.xDlSym = d.xDlSym ∧
      v.xDlClose = d.xDlClose ∧ v.xRandomness = d.xRandomness ∧ v.xSleep = d.xSleep ∧
      v.xGetLastError = d.xGetLastError ∧
      v.xOpen = Fn.xOpen ∧ v.xDelete = Fn.opfsDelete ∧ v.xAccess = Fn.opfsAccess ∧
      v.xFullPathname = Fn.xFullPathname ∧ v.xCurrentTime = Fn.xCurrentTime ∧
      e1.heap pd = some { d with pNext := some a } := by
  obtain ⟨e1, nx, hmain, _, hea, hepd⟩ := main_ok szFile engineInit a g e0 pd d hfind hd hfresh
  exact ⟨e1, { opfsDescriptor szFile d with pNext := nx }, hmain, hea,
    rfl, rfl, rfl, rfl, rfl, rfl, rfl, rfl, rfl, rfl, rfl, rfl, hepd⟩

/-- C5 on the default backend "unix", whose own `xOpen`, `xDelete`, `xAccess`,
`xFullPathname` and `xCurrentTime` differ from the adapter's. -/
theorem main_delegates_from_default_witness :
    sqlite3_vfs_find (id unixEngine) none = some 1 ∧ (id unixEngine).heap 1 = some unixVfs ∧
      (id unixEngine).heap 2 = none ∧
      ∃ (e1 : Engine) (v : sqlite3_vfs),
        main 4 id (some (2, staleBlock)) unixEngine = .ok (0, e1) ∧ e1.heap 2 = some v ∧
        v.xDlOpen = unixVfs.xDlOpen ∧ v.xDlError = unixVfs.xDlError ∧
        v.xDlSym = unixVfs.xDlSym ∧ v.xDlClose = unixVfs.xDlClose ∧
        v.xRandomness = unixVfs.xRandomness ∧ v.xSleep = unixVfs.xSleep ∧
        v.xGetLastError = unixVfs.xGetLastError ∧
        v.xOpen = Fn.xOpen ∧ v.xDelete = Fn.opfsDelete ∧ v.xAccess = Fn.opfsAccess ∧
        v.xFullPathname = Fn.xFullPathname ∧ v.xCurrentTime = Fn.xCurrentTime ∧
        e1.heap 1 = some { unixVfs with pNext := some 2 } :=
  ⟨rfl, rfl, rfl, main_delegates_from_default 4 id 2 staleBlock unixEngine 1 unixVfs rfl rfl rfl⟩

/-- C10: the descriptor that `main` builds has version 1, maximum path length
1024, per-file state size `sizeof(sqlite3_file)`, the name "opfs" (which is
not empty), and `xOpen`, `opfsDelete`, `opfsAccess`, `xFullPathname`,
`xCurrentTime` in its open, delete, access, full-path and current-time
members.  This holds right after lines 79-90, whatever bytes the allocated
block held; and when a default backend is registered at the moment of the
lookup and the block is fresh, `main` returns 0 and the descriptor it has
registered still has these values. -/
theorem main_builds_descriptor (szFile : Int) (engineInit : Engine → Engine) (a : Nat)
    (g : sqlite3_vfs) (e0 : Engine) :
    (∃ (e1 : Engine) (v : sqlite3_vfs),
      main_build szFile (sqlite3_malloc (engineInit e0) (some (a, g))).2
          (sqlite3_malloc (engineInit e0) (some (a, g))).1 = .ok e1 ∧
      e1.heap a = some v ∧
      v.iVersion = 1 ∧ v.mxPathname = 1024 ∧ v.szOsFile = szFile ∧
      v.zName = "opfs" ∧ v.zName ≠ "" ∧
      v.xOpen = Fn.xOpen ∧ v.xDelete = Fn.opfsDelete ∧ v.xAccess = Fn.opfsAccess ∧
      v.xFullPathname = Fn.xFullPathname ∧ v.xCurrentTime = Fn.xCurrentTime) ∧
    (∀ (pd : Nat) (d : sqlite3_vfs), sqlite3_vfs_find (engineInit e0) none = some pd →
      (engineInit e0).heap pd = some d → (engineInit e0).heap a = none →
      ∃ (e2 : Engine) (v : sqlite3_vfs),
        main szFile engineInit (some (a, g)) e0 = .ok (0, e2) ∧
        e2.heap a = some v ∧ a ∈ e2.vfsList ∧
        v.iVersion = 1 ∧ v.mxPathname = 1024 ∧ v.szOsFile = szFile ∧
        v.zName = "opfs" ∧ v.zName ≠ "" ∧
        v.xOpen = Fn.xOpen ∧ v.xDelete = Fn.opfsDelete ∧ v.xAccess = Fn.opfsAccess ∧
        v.xFullPathname = Fn.xFullPathname ∧ v.xCurrentTime = Fn.xCurrentTime) := by
  constructor
  · have hb := main_build_ok szFile
      { heap := Function.update (engineInit e0).heap a (some g)
        vfsList := (engineInit e0).vfsList
        lowMem := (engineInit e0).lowMem } a g (by simp)
    refine ⟨_, ({ g with
      iVersion := 1
      szOsFile := szFile
      mxPathname := 1024
      pNext := none
      zName := "opfs"
      pAppData := none
      xOpen := Fn.xOpen
      xDelete := Fn.opfsDelete
      xAccess := Fn.opfsAccess
      xFullPathname := Fn.xFullPathname
      xCurrentTime := Fn.xCurrentTime } : sqlite3_vfs), hb, by simp, rfl, rfl, rfl, rfl, ?_,
      rfl, rfl, rfl, rfl, rfl⟩
    show ("opfs" : String) ≠ ""
    decide
  · intro pd d hfind hd hfresh
    obtain ⟨e2, nx, hmain, hlist, hea, _⟩ := main_ok szFile engineInit a g e0 pd d hfind hd hfresh
    refine ⟨e2, { opfsDescriptor szFile d with pNext := nx }, hmain, hea, by simp [hlist],
      rfl, rfl, rfl, rfl, ?_, rfl, rfl, rfl, rfl, rfl⟩
    show ("opfs" : String) ≠ ""
    decide

/-- C10 on the engine with the default backend "unix", a stale block at
address 2 and `sizeof(sqlite3_file) = 4`. -/
theorem main_builds_descriptor_witness :
    sqlite3_vfs_find (id unixEngine) none = some 1 ∧ (id unixEngine).heap 1 = some unixVfs ∧
      (id unixEngine).heap 2 = none ∧
      ∃ (e2 : Engine) (v : sqlite3_vfs),
        main 4 id (some (2, staleBlock)) unixEngine = .ok (0, e2) ∧
        e2.heap 2 = some v ∧ 2 ∈ e2.vfsList ∧
        v.iVersion = 1 ∧ v.mxPathname = 1024 ∧ v.szOsFile = 4 ∧
        v.zName = "opfs" ∧ v.zName ≠ "" ∧
        v.xOpen = Fn.xOpen ∧ v.xDelete = Fn.opfsDelete ∧ v.xAccess = Fn.opfsAccess ∧
        v.xFullPathname = Fn.xFullPathname ∧ v.xCurrentTime = Fn.xCurrentTime :=
  ⟨rfl, rfl, rfl,
    (main_builds_descriptor 4 id 2 staleBlock unixEngine).2 1 unixVfs rfl rfl rfl⟩

end Libopfs
